import Mathlib

/-! # Mandelbrot benchmark driver (`prog1_mandelbrot_threads/main.cpp`)

A shallow embedding of the driver: the result checker `verifyResult`, the
view transformation `scaleAndShift`, and the control flow of `main`
(option handling, the timed trials, the two image dumps, the final check).

Conventions of the embedding.

* A C++ `int` is an `Int`; the one place where `int` arithmetic can leave the
  32-bit range, the cell index `i * width + j`, is wrapped explicitly by
  `wrapInt` (two's complement, modulo `2^32`).
* An `int` array is a `List Int`; a read at an index outside the list has no
  defined result and is reported as `Flow.undefined`.
* `printf` output and calls of functions defined in other translation units
  are recorded as ghost traces.
* `float` and `double` values are exact rationals.
* `mandelbrotSerial` and `mandelbrotThread` are declared in `main.cpp` and
  defined elsewhere: `main` takes them as parameters (`Env`), and the claims
  about the partition and the parallel render use models written from the
  specification (`mandelbrotSerialSpec`, `mandelbrotThreadSpec`).
-/

namespace Mandelbrot

/-! ## Machine integers and array reads -/

/-- Two's-complement wrap of a mathematical integer into the range of a
32-bit `int`, `-2^31 .. 2^31 - 1`. -/
def wrapInt (x : Int) : Int := (x + 2147483648) % 4294967296 - 2147483648

/-- The `int` expression `i * width + j` of `verifyResult`: a product and a
sum, each wrapped to 32 bits. -/
def cellIndex (width i j : Int) : Int := wrapInt (wrapInt (i * width) + j)

/-- The read `a[k]` of an `int` array: defined only inside the array. -/
def readCell (a : List Int) (k : Int) : Option Int :=
  if 0 ≤ k then a[k.toNat]? else none

/-! ## `verifyResult` -/

/-- One line printed by `verifyResult`:
`Mismatch : [row][col], Expected : expected, Actual : actual`. -/
structure Mismatch where
  row : Int
  col : Int
  expected : Int
  actual : Int
deriving DecidableEq, Repr

/-- How a piece of `verifyResult` ends: the loop ran to its end (`running`),
a `return` was executed, or an array was read outside its bounds. -/
inductive Flow where
  | running
  | returned (b : Bool)
  | undefined
deriving DecidableEq, Repr

/-- Everything observable of a run of (a part of) `verifyResult`: the indices
at which the two arrays were read, in order; the lines printed; how it ended. -/
structure Run where
  reads : List Int
  printed : List Mismatch
  flow : Flow
deriving DecidableEq, Repr

/-- The inner loop `for (j = ...; j < width; j++)` of `verifyResult` in row
`i`, entered at column `j` with `n` iterations left (`n = width - j`; the
counter only moves by `j++`, and `j < width` keeps `j + 1` inside `int`). -/
def verifyCols (gold result : List Int) (width i : Int) : Nat → Int → Run
  | 0, _ => { reads := [], printed := [], flow := Flow.running }
  | n + 1, j =>
    let k := cellIndex width i j
    match readCell gold k, readCell result k with
    | some g, some r =>
      if g ≠ r then
        { reads := [k], printed := [{ row := i, col := j, expected := g, actual := r }],
          flow := Flow.returned false }
      else
        let rest := verifyCols gold result width i n (j + 1)
        { rest with reads := k :: rest.reads }
    | _, _ => { reads := [k], printed := [], flow := Flow.undefined }

/-- The outer loop `for (i = ...; i < height; i++)` of `verifyResult`, entered
at row `i` with `n` iterations left (`n = height - i`), followed by the final
`return 1`. -/
def verifyRows (gold result : List Int) (width : Int) : Nat → Int → Run
  | 0, _ => { reads := [], printed := [], flow := Flow.returned true }
  | n + 1, i =>
    let row := verifyCols gold result width i width.toNat 0
    match row.flow with
    | Flow.running =>
      let rest := verifyRows gold result width n (i + 1)
      { reads := row.reads ++ rest.reads, printed := row.printed ++ rest.printed,
        flow := rest.flow }
    | _ => row

/-- The function `verifyResult(gold, result, width, height)`. A negative
`width` or `height` gives a loop that is never entered (`Int.toNat` is `0`). -/
def verifyResult (gold result : List Int) (width height : Int) : Run :=
  verifyRows gold result width height.toNat 0


/-! ## Proof devices for `verifyResult` -/

/-- The cells `(i, j), (i, j+1), ...` visited by `n` iterations of the inner loop. -/
def rowCells (i : Int) : Nat → Int → List (Int × Int)
  | 0, _ => []
  | n + 1, j => (i, j) :: rowCells i n (j + 1)

/-- The cells visited by `n` iterations of the outer loop over rows of `w`
columns, in the order of the visit. -/
def gridCells (w : Nat) : Nat → Int → List (Int × Int)
  | 0, _ => []
  | n + 1, i => rowCells i w 0 ++ gridCells w n (i + 1)

/-- The comparison loop over an explicit list of cells, ending as `fin` when
the list is exhausted. -/
def scanCells (gold result : List Int) (width : Int) (fin : Run) : List (Int × Int) → Run
  | [] => fin
  | c :: cs =>
    let k := cellIndex width c.1 c.2
    match readCell gold k, readCell result k with
    | some g, some r =>
      if g ≠ r then
        { reads := [k], printed := [{ row := c.1, col := c.2, expected := g, actual := r }],
          flow := Flow.returned false }
      else
        let rest := scanCells gold result width fin cs
        { rest with reads := k :: rest.reads }
    | _, _ => { reads := [k], printed := [], flow := Flow.undefined }

/-- Both arrays can be read at the machine index of cell `c` and hold the same value. -/
def CellEq (gold result : List Int) (width : Int) (c : Int × Int) : Prop :=
  ∃ v, readCell gold (cellIndex width c.1 c.2) = some v ∧
    readCell result (cellIndex width c.1 c.2) = some v

/-- Row-major order on cells. -/
def Before (a b : Int × Int) : Prop := a.1 < b.1 ∨ (a.1 = b.1 ∧ a.2 < b.2)

/-- The run that has only the final `return 1` left. -/
def retTrue : Run := { reads := [], printed := [], flow := Flow.returned true }

/-- The run of a loop that has ended without returning. -/
def fellThrough : Run := { reads := [], printed := [], flow := Flow.running }

/-! ## `scaleAndShift` -/

/-- The four bounds `x0, x1, y0, y1` of the region of the complex plane that is
rendered (`float` in the source, exact rationals here). -/
structure Viewport where
  x0 : ℚ
  x1 : ℚ
  y0 : ℚ
  y1 : ℚ
deriving DecidableEq

/-- The function `scaleAndShift(x0, x1, y0, y1, scale, shiftX, shiftY)`: the four
reference parameters are updated in place, here returned as the new viewport. -/
def scaleAndShift (v : Viewport) (scale shiftX shiftY : ℚ) : Viewport :=
  { x0 := v.x0 * scale + shiftX
    x1 := v.x1 * scale + shiftX
    y0 := v.y0 * scale + shiftY
    y1 := v.y1 * scale + shiftY }

/-! ## Command line -/

/-- White space as `isspace` of the C locale sees it. -/
def isSpaceChar (c : Char) : Bool := c.toNat = 32 || (9 ≤ c.toNat && c.toNat ≤ 13)

/-- The decimal digits at the front of a string, read onto the accumulator. -/
def readDigits : List Char → Int → Int
  | [], acc => acc
  | c :: cs, acc =>
    if c.isDigit then readDigits cs (acc * 10 + ((c.toNat : Int) - 48)) else acc

/-- The C library function `atoi`: leading white space is skipped, one optional
sign is read, then decimal digits up to the first other character; no digits give
`0`. The C library leaves the result open when the value does not fit an `int`;
the model gives the mathematical value there. -/
def atoi (s : String) : Int :=
  match s.toList.dropWhile isSpaceChar with
  | [] => 0
  | c :: cs =>
    if c = '-' then - readDigits cs 0
    else if c = '+' then readDigits cs 0
    else readDigits (c :: cs) 0

/-- One result of `getopt_long(argc, argv, "t:v:?", long_options, NULL)` before it
returns `EOF`: `-t`/`--threads` or `-v`/`--view` with its argument, or any other
return value (`?` for `-?`, `--help`, an unknown option or a missing argument). -/
inductive Opt where
  | threads (optarg : String)
  | view (optarg : String)
  | other
deriving DecidableEq

/-- The local variables of `main` that option handling may change. -/
structure Config where
  numThreads : Int
  view : Viewport
deriving DecidableEq

/-- The constants `width`, `height` and `maxIterations` of `main`. -/
def width : Int := 1600

/-- See `width`. -/
def height : Int := 1200

/-- See `width`. -/
def maxIterations : Int := 256

/-- The initial values `numThreads = 8`, `x0 = -2`, `x1 = 1`, `y0 = -1`, `y1 = 1`. -/
def defaultConfig : Config :=
  { numThreads := 8, view := { x0 := -2, x1 := 1, y0 := -1, y1 := 1 } }

/-- What `main` prints and which functions of other translation units it calls. -/
inductive Event where
  | usage
  | invalidViewIndex
  | memsetSerial
  | callSerial (v : Viewport) (width height startRow numRows maxIterations : Int)
  | printSerial (seconds : ℚ)
  | memsetThread
  | callThread (numThreads : Int) (v : Viewport) (width height maxIterations : Int)
  | printThread (seconds : ℚ)
  | writePPM (file : String)
  | callVerify
  | mismatch (m : Mismatch)
  | printError
  | printSpeedup (serialSeconds threadSeconds : ℚ) (numThreads : Int)
deriving DecidableEq

/-- Result of the option loop: fall out of the loop with the settings made, or
`return 1` after printing. -/
inductive Parsed where
  | proceed (cfg : Config)
  | exit (e : Event)
deriving DecidableEq

/-- The `while ((opt = getopt_long(...)) != EOF) switch (opt)` loop of `main`. -/
def parseOptions (cfg : Config) : List Opt → Parsed
  | [] => Parsed.proceed cfg
  | Opt.threads optarg :: rest => parseOptions { cfg with numThreads := atoi optarg } rest
  | Opt.view optarg :: rest =>
    let viewIndex := atoi optarg
    if viewIndex = 2 then
      parseOptions { cfg with view := scaleAndShift cfg.view (15 / 1000) (-986 / 1000) (30 / 100) }
        rest
    else if viewIndex > 1 then Parsed.exit Event.invalidViewIndex
    else parseOptions cfg rest
  | Opt.other :: _ => Parsed.exit Event.usage

/-- The functions `main` calls that are defined outside `main.cpp`. The renderers
write into the caller's array, so the array keeps its length; `currentSeconds k`
is the reading of the `k`-th call of `CycleTimer::currentSeconds`. -/
structure Env where
  mandelbrotSerial : Viewport → Int → Int → Int → Int → Int → List Int → List Int
  mandelbrotThread : Int → Viewport → Int → Int → Int → List Int → List Int
  currentSeconds : Nat → ℚ
  serial_length : ∀ v w h s n m out, (mandelbrotSerial v w h s n m out).length = out.length
  thread_length : ∀ t v w h m out, (mandelbrotThread t v w h m out).length = out.length

/-- State carried through a loop of timed trials. -/
structure Trials where
  grid : List Int
  best : ℚ
  ticks : Nat
  trace : List Event

/-- The loop `for (int i = 0; i < 5; ++i)` around `mandelbrotSerial`, with `n`
iterations left: `memset` to zero, read the timer, render rows `0 .. height - 1`,
read the timer, keep the smaller time. -/
def serialTrials (env : Env) (v : Viewport) : Nat → Trials → Trials
  | 0, st => st
  | n + 1, st =>
    let zeroed := List.replicate st.grid.length (0 : Int)
    let startTime := env.currentSeconds st.ticks
    let out := env.mandelbrotSerial v width height 0 height maxIterations zeroed
    let endTime := env.currentSeconds (st.ticks + 1)
    serialTrials env v n
      { grid := out
        best := min st.best (endTime - startTime)
        ticks := st.ticks + 2
        trace := st.trace ++
          [Event.memsetSerial, Event.callSerial v width height 0 height maxIterations] }

/-- The loop `for (int i = 0; i < 5; ++i)` around `mandelbrotThread`, with `n`
iterations left. -/
def threadTrials (env : Env) (cfg : Config) : Nat → Trials → Trials
  | 0, st => st
  | n + 1, st =>
    let zeroed := List.replicate st.grid.length (0 : Int)
    let startTime := env.currentSeconds st.ticks
    let out := env.mandelbrotThread cfg.numThreads cfg.view width height maxIterations zeroed
    let endTime := env.currentSeconds (st.ticks + 1)
    threadTrials env cfg n
      { grid := out
        best := min st.best (endTime - startTime)
        ticks := st.ticks + 2
        trace := st.trace ++
          [Event.memsetThread,
            Event.callThread cfg.numThreads cfg.view width height maxIterations] }

/-- What a run of `main` leaves behind: the exit status (`none` when the final
check read outside an array) and the trace of prints and calls. -/
structure Outcome where
  status : Option Int
  trace : List Event

/-- The array `new int[width * height]`. Its contents are indeterminate until
the `memset` at the start of the first trial; the model starts it at zero. -/
def newGrid : List Int := List.replicate (width * height).toNat 0

/-- The serial trials of `main`, from `double minSerial = 1e30`. -/
def runSerial (env : Env) (cfg : Config) : Trials :=
  serialTrials env cfg.view 5
    { grid := newGrid, best := 1000000000000000000000000000000, ticks := 0, trace := [] }

/-- The threaded trials of `main`, from `double minThread = 1e30`; the timer has
been read ten times by then. -/
def runThread (env : Env) (cfg : Config) : Trials :=
  threadTrials env cfg 5
    { grid := newGrid, best := 1000000000000000000000000000000, ticks := 10, trace := [] }

/-- The part of `main` after the option loop. -/
def render (env : Env) (cfg : Config) : Outcome :=
  let serial := runSerial env cfg
  let thread := runThread env cfg
  let check := verifyResult serial.grid thread.grid width height
  let shown := serial.trace ++ [Event.printSerial serial.best, Event.writePPM "mandelbrot-serial.ppm"]
    ++ thread.trace ++ [Event.printThread thread.best, Event.writePPM "mandelbrot-thread.ppm"]
    ++ [Event.callVerify] ++ check.printed.map Event.mismatch
  match check.flow with
  | Flow.returned true =>
    { status := some 0
      trace := shown ++ [Event.printSpeedup serial.best thread.best cfg.numThreads] }
  | Flow.returned false => { status := some 1, trace := shown ++ [Event.printError] }
  | _ => { status := none, trace := shown }

/-- The function `main`, given the results of the successive `getopt_long` calls. -/
def main (env : Env) (opts : List Opt) : Outcome :=
  match parseOptions defaultConfig opts with
  | Parsed.exit e => { status := some 1, trace := [e] }
  | Parsed.proceed cfg => render env cfg

/-- Modelled from the spec: the EscapeKernel as both renderers use it, taken as a
function of the viewport, the dimensions, the iteration bound and the pixel
(row, column); its definition is not among the sources. -/
abbrev Kernel := Viewport → Nat → Nat → Int → Nat → Nat → Int

/-- Modelled from the spec: the PartitionStrategy of `mandelbrotThread` (§4.1, its
definition is not among the sources): row `r` is assigned to worker
`r mod numThreads`. -/
def workerOf (numThreads r : Nat) : Nat := r % numThreads

/-- Modelled from the spec: the row set of worker `w` (§3 Partition, the definition
of `mandelbrotThread` is not among the sources): the rows of `0 .. height - 1`
assigned to `w`, in increasing order. -/
def workerRows (numThreads height w : Nat) : List Nat :=
  (List.range height).filter (fun r => decide (workerOf numThreads r = w))

/-- Modelled from the spec: the stores of one rendered row (§4.2, "for each column,
invoke EscapeKernel and store the result"; the renderers are not among the
sources): cell `r * width + c` receives the kernel value of pixel `(r, c)`. -/
def rowWrites (px : Nat → Nat → Int) (width r : Nat) : List (Nat × Int) :=
  (List.range width).map (fun c => (r * width + c, px r c))

/-- Modelled from the spec: a sequence of stores applied to a grid, first to last
(the renderers that issue them are not among the sources). -/
def store (grid : List Int) (ws : List (Nat × Int)) : List Int :=
  ws.foldl (fun g w => g.set w.1 w.2) grid

/-- Modelled from the spec: the stores of the SerialRenderer (§4.4, not among the
sources): rows `startRow .. startRow + numRows - 1` in row-major order. -/
def serialWrites (px : Nat → Nat → Int) (width startRow numRows : Nat) : List (Nat × Int) :=
  (List.range numRows).flatMap (fun t => rowWrites px width (startRow + t))

/-- Modelled from the spec: `mandelbrotSerial` (§4.4, declared in `main.cpp`,
defined outside the sources). -/
def mandelbrotSerialSpec (kernel : Kernel) (v : Viewport) (width height startRow numRows : Nat)
    (maxIterations : Int) (out : List Int) : List Int :=
  store out (serialWrites (kernel v width height maxIterations) width startRow numRows)

/-- Modelled from the spec: the stores of worker `w` (§4.2, not among the sources):
"for each row assigned to this worker, for each column, invoke EscapeKernel and
store the result". -/
def workerWrites (px : Nat → Nat → Int) (numThreads width height w : Nat) : List (Nat × Int) :=
  (workerRows numThreads height w).flatMap (rowWrites px width)

/-- Modelled from the spec: the stores of all workers `0 .. numThreads - 1` of the
ParallelRenderer (§4.2, not among the sources), one worker after the other. -/
def threadWrites (px : Nat → Nat → Int) (numThreads width height : Nat) : List (Nat × Int) :=
  (List.range numThreads).flatMap (workerWrites px numThreads width height)

/-- Modelled from the spec: `mandelbrotThread` (§4.2, declared in `main.cpp`,
defined outside the sources), run under the schedule in which the workers' stores
follow one another in the order of the worker ids. -/
def mandelbrotThreadSpec (kernel : Kernel) (numThreads : Nat) (v : Viewport) (width height : Nat)
    (maxIterations : Int) (out : List Int) : List Int :=
  store out (threadWrites (kernel v width height maxIterations) numThreads width height)

/-- Modelled from the spec: a schedule of a threaded render (§5, no ordering between
workers; the ParallelRenderer is not among the sources): any order of the workers'
stores. Every interleaving of the workers' store sequences is such an order. -/
def IsSchedule (px : Nat → Nat → Int) (numThreads width height : Nat)
    (sched : List (Nat × Int)) : Prop :=
  sched.Perm (threadWrites px numThreads width height)

/-- The environment of `main` in which the two renderers are the ones of the
specification, with kernel `kernel` and timer `clock`. -/
def specEnv (kernel : Kernel) (clock : Nat → ℚ) : Env :=
  { mandelbrotSerial := fun v w h s n m out =>
      mandelbrotSerialSpec kernel v w.toNat h.toNat s.toNat n.toNat m out
    mandelbrotThread := fun t v w h m out =>
      mandelbrotThreadSpec kernel t.toNat v w.toNat h.toNat m out
    currentSeconds := clock
    serial_length := fun v w h s n m out => by
      show (List.foldl (fun g p => g.set p.1 p.2) out (serialWrites _ _ _ _)).length = out.length
      generalize serialWrites _ _ _ _ = ws
      induction ws generalizing out with
      | nil => rfl
      | cons p ps ih => rw [List.foldl_cons, ih, List.length_set]
    thread_length := fun t v w h m out => by
      show (List.foldl (fun g p => g.set p.1 p.2) out (threadWrites _ _ _ _)).length = out.length
      generalize threadWrites _ _ _ _ = ws
      induction ws generalizing out with
      | nil => rfl
      | cons p ps ih => rw [List.foldl_cons, ih, List.length_set] }

/-- The kernel that gives every pixel the count 0. -/
def zeroKernel : Kernel := fun _ _ _ _ _ _ => 0

/-- A kernel that tells the pixels apart: pixel `(r, c)` gets `10 * r + c`. -/
def tagKernel : Kernel := fun _ _ _ _ r c => 10 * (r : Int) + c

/-! # Theorems -/

theorem verifyCols_eq_scanCells (gold result : List Int) (width i : Int) (n : Nat) (j : Int) :
    verifyCols gold result width i n j
      = scanCells gold result width fellThrough (rowCells i n j) := by
  induction n generalizing j with
  | zero => rfl
  | succ n ih =>
    simp only [verifyCols, rowCells, scanCells, ih]

theorem scanCells_append (gold result : List Int) (width : Int) (fin : Run)
    (xs ys : List (Int × Int)) :
    scanCells gold result width fin (xs ++ ys)
      = scanCells gold result width (scanCells gold result width fin ys) xs := by
  induction xs with
  | nil => rfl
  | cons c cs ih => simp only [List.cons_append, scanCells, List.append_eq, ih]

theorem scanCells_fellThrough (gold result : List Int) (width : Int) (fin : Run)
    (xs : List (Int × Int)) :
    scanCells gold result width fin xs
      = match (scanCells gold result width fellThrough xs).flow with
        | Flow.running =>
          { reads := (scanCells gold result width fellThrough xs).reads ++ fin.reads,
            printed := (scanCells gold result width fellThrough xs).printed ++ fin.printed,
            flow := fin.flow }
        | _ => scanCells gold result width fellThrough xs := by
  induction xs with
  | nil => simp [scanCells, fellThrough]
  | cons c cs ih =>
    simp only [scanCells]
    cases hg : readCell gold (cellIndex width c.1 c.2) with
    | none => simp
    | some g =>
      cases hr : readCell result (cellIndex width c.1 c.2) with
      | none => simp
      | some r =>
        by_cases h : g = r
        · simp only [h, ne_eq, not_true_eq_false, ↓reduceIte]
          rw [ih]
          cases hf : (scanCells gold result width fellThrough cs).flow <;> simp [hf]
        · simp [h]

theorem verifyRows_eq_scanCells (gold result : List Int) (width : Int) (n : Nat) (i : Int) :
    verifyRows gold result width n i
      = scanCells gold result width retTrue (gridCells width.toNat n i) := by
  induction n generalizing i with
  | zero => rfl
  | succ n ih =>
    rw [gridCells, scanCells_append, scanCells_fellThrough, ← ih, verifyRows,
      verifyCols_eq_scanCells]

/-- The three ways the comparison loop over a list of cells can end: every cell
agrees; a first differing cell is reported; a first cell cannot be read. -/
theorem scanCells_cases (gold result : List Int) (width : Int) (cs : List (Int × Int)) :
    ((∀ c ∈ cs, CellEq gold result width c) ∧
      scanCells gold result width retTrue cs
        = { reads := cs.map (fun c => cellIndex width c.1 c.2), printed := [],
            flow := Flow.returned true }) ∨
    (∃ pre c post g r, cs = pre ++ c :: post ∧ (∀ x ∈ pre, CellEq gold result width x) ∧
      readCell gold (cellIndex width c.1 c.2) = some g ∧
      readCell result (cellIndex width c.1 c.2) = some r ∧ g ≠ r ∧
      scanCells gold result width retTrue cs
        = { reads := (pre ++ [c]).map (fun c => cellIndex width c.1 c.2),
            printed := [{ row := c.1, col := c.2, expected := g, actual := r }],
            flow := Flow.returned false }) ∨
    (∃ pre c post, cs = pre ++ c :: post ∧ (∀ x ∈ pre, CellEq gold result width x) ∧
      (readCell gold (cellIndex width c.1 c.2) = none ∨
        readCell result (cellIndex width c.1 c.2) = none) ∧
      scanCells gold result width retTrue cs
        = { reads := (pre ++ [c]).map (fun c => cellIndex width c.1 c.2), printed := [],
            flow := Flow.undefined }) := by
  induction cs with
  | nil => left; exact ⟨by simp, rfl⟩
  | cons c cs ih =>
    cases hg : readCell gold (cellIndex width c.1 c.2) with
    | none =>
      right; right
      exact ⟨[], c, cs, rfl, by simp, Or.inl hg, by simp [scanCells, hg]⟩
    | some g =>
      cases hr : readCell result (cellIndex width c.1 c.2) with
      | none =>
        right; right
        exact ⟨[], c, cs, rfl, by simp, Or.inr hr, by simp [scanCells, hg, hr]⟩
      | some r =>
        by_cases h : g = r
        · subst h
          have hc : CellEq gold result width c := ⟨g, hg, hr⟩
          rcases ih with ⟨hall, hrun⟩ | ⟨pre, d, post, a, b, hcs, hpre, ha, hb, hab, hrun⟩ |
            ⟨pre, d, post, hcs, hpre, hbad, hrun⟩
          · left
            refine ⟨?_, ?_⟩
            · intro x hx
              rcases List.mem_cons.1 hx with rfl | hx
              · exact hc
              · exact hall x hx
            · simp [scanCells, hg, hr, hrun]
          · right; left
            refine ⟨c :: pre, d, post, a, b, by simp [hcs], ?_, ha, hb, hab, ?_⟩
            · intro x hx
              rcases List.mem_cons.1 hx with rfl | hx
              · exact hc
              · exact hpre x hx
            · simp [scanCells, hg, hr, hrun]
          · right; right
            refine ⟨c :: pre, d, post, by simp [hcs], ?_, hbad, ?_⟩
            · intro x hx
              rcases List.mem_cons.1 hx with rfl | hx
              · exact hc
              · exact hpre x hx
            · simp [scanCells, hg, hr, hrun]
        · right; left
          exact ⟨[], c, cs, g, r, rfl, by simp, hg, hr, h, by simp [scanCells, hg, hr, h]⟩

theorem mem_rowCells (i : Int) (n : Nat) (j : Int) (c : Int × Int) :
    c ∈ rowCells i n j ↔ c.1 = i ∧ j ≤ c.2 ∧ c.2 < j + n := by
  induction n generalizing j with
  | zero => simp [rowCells]
  | succ n ih =>
    obtain ⟨a, b⟩ := c
    simp only [rowCells, List.mem_cons, Prod.mk.injEq, ih]
    constructor
    · rintro (⟨rfl, rfl⟩ | ⟨rfl, h1, h2⟩)
      · exact ⟨rfl, le_refl _, by push_cast; omega⟩
      · exact ⟨rfl, by omega, by push_cast; omega⟩
    · rintro ⟨rfl, h1, h2⟩
      push_cast at h2
      by_cases hb : b = j
      · left; exact ⟨rfl, hb⟩
      · right; exact ⟨rfl, by omega, by omega⟩

theorem mem_gridCells (w n : Nat) (i : Int) (c : Int × Int) :
    c ∈ gridCells w n i ↔ (i ≤ c.1 ∧ c.1 < i + n) ∧ 0 ≤ c.2 ∧ c.2 < w := by
  induction n generalizing i with
  | zero => simp [gridCells]
  | succ n ih =>
    simp only [gridCells, List.mem_append, mem_rowCells, ih]
    push_cast
    constructor
    · rintro (⟨h, h1, h2⟩ | ⟨⟨h1, h2⟩, h3, h4⟩)
      · exact ⟨⟨by omega, by omega⟩, h1, by omega⟩
      · exact ⟨⟨by omega, by omega⟩, h3, h4⟩
    · rintro ⟨⟨h1, h2⟩, h3, h4⟩
      by_cases hi : c.1 = i
      · left; exact ⟨hi, h3, by omega⟩
      · right; exact ⟨⟨by omega, by omega⟩, h3, h4⟩

theorem pairwise_rowCells (i : Int) (n : Nat) (j : Int) :
    (rowCells i n j).Pairwise Before := by
  induction n generalizing j with
  | zero => simp [rowCells]
  | succ n ih =>
    simp only [rowCells, List.pairwise_cons]
    refine ⟨?_, ih (j + 1)⟩
    intro c hc
    rw [mem_rowCells] at hc
    right
    exact ⟨hc.1.symm, by simp only; omega⟩

theorem pairwise_gridCells (w n : Nat) (i : Int) : (gridCells w n i).Pairwise Before := by
  induction n generalizing i with
  | zero => simp [gridCells]
  | succ n ih =>
    simp only [gridCells]
    rw [List.pairwise_append]
    refine ⟨pairwise_rowCells i w 0, ih (i + 1), ?_⟩
    intro a ha b hb
    rw [mem_rowCells] at ha
    rw [mem_gridCells] at hb
    left
    omega

/-- In a list sorted by `Before`, the cells in front of an entry are exactly the
cells of the list that come before it in row-major order. -/
theorem mem_front_iff (pre post : List (Int × Int)) (c x : Int × Int)
    (hs : (pre ++ c :: post).Pairwise Before) :
    x ∈ pre ↔ x ∈ pre ++ c :: post ∧ Before x c := by
  rw [List.pairwise_append] at hs
  obtain ⟨_, hcp, hcross⟩ := hs
  rw [List.pairwise_cons] at hcp
  constructor
  · intro hx
    exact ⟨List.mem_append_left _ hx, hcross x hx c (List.mem_cons_self _ _)⟩
  · rintro ⟨hx, hb⟩
    rcases List.mem_append.1 hx with h | h
    · exact h
    · exfalso
      rcases List.mem_cons.1 h with rfl | h
      · rcases hb with hb | ⟨_, hb⟩ <;> omega
      · have := hcp.1 x h
        rcases hb with hb | ⟨hb1, hb2⟩ <;> rcases this with h1 | ⟨h1, h2⟩ <;> omega

/-! ### Index arithmetic -/

theorem wrapInt_of_range (x : Int) (h0 : -2147483648 ≤ x) (h1 : x < 2147483648) :
    wrapInt x = x := by
  unfold wrapInt; omega

/-- Below `2^31` the machine index is the mathematical one. -/
theorem cellIndex_of_lt (width i j : Int) (hw : 0 ≤ width) (hi : 0 ≤ i) (hj : 0 ≤ j)
    (h : i * width + j < 2147483648) : cellIndex width i j = i * width + j := by
  have hm : 0 ≤ i * width := mul_nonneg hi hw
  unfold cellIndex
  rw [wrapInt_of_range (i * width) (by omega) (by omega), wrapInt_of_range _ (by omega) h]

/-- The cell at row-major position `2^31` has a negative machine index. -/
theorem cellIndex_barrier (width : Int) (hw : 0 < width) :
    cellIndex width (2147483648 / width) (2147483648 % width) = -2147483648 := by
  have h1 : width * (2147483648 / width) + 2147483648 % width = 2147483648 :=
    Int.ediv_add_emod _ _
  have h2 : 0 ≤ 2147483648 % width := Int.emod_nonneg _ (by omega)
  have h3 : 0 ≤ 2147483648 / width := Int.ediv_nonneg (by norm_num) (by omega)
  have h4 : 0 ≤ (2147483648 / width) * width := mul_nonneg h3 (by omega)
  rw [mul_comm] at h1
  unfold cellIndex wrapInt
  omega

theorem readCell_neg (a : List Int) (k : Int) (h : k < 0) : readCell a k = none := by
  unfold readCell
  rw [if_neg (by omega)]

theorem readCell_of_lt (a : List Int) (k : Int) (h0 : 0 ≤ k) (h1 : k < a.length) :
    ∃ v, readCell a k = some v := by
  unfold readCell
  rw [if_pos h0]
  have : k.toNat < a.length := by omega
  exact ⟨a[k.toNat], List.getElem?_eq_getElem this⟩

/-- Row-major order is the order of the positions `i * width + j`. -/
theorem pos_lt_of_before (width : Int) (a b : Int × Int) (hw : 0 ≤ width) (ha : a.2 < width)
    (hb : 0 ≤ b.2) (h : Before a b) : a.1 * width + a.2 < b.1 * width + b.2 := by
  rcases h with h | ⟨h1, h2⟩
  · have : (a.1 + 1) * width ≤ b.1 * width := mul_le_mul_of_nonneg_right (by omega) hw
    rw [add_mul] at this
    omega
  · rw [h1]; omega

theorem before_or_eq_of_pos_le (width : Int) (a b : Int × Int) (hw : 0 < width)
    (ha : 0 ≤ a.2) (hb : b.2 < width)
    (h : a.1 * width + a.2 ≤ b.1 * width + b.2) : Before a b ∨ a = b := by
  have h1 : a.1 ≤ b.1 := by
    by_contra hlt
    have : (b.1 + 1) * width ≤ a.1 * width :=
      mul_le_mul_of_nonneg_right (by omega) (by omega)
    rw [add_mul] at this
    omega
  rcases lt_or_eq_of_le h1 with h2 | h2
  · exact Or.inl (Or.inl h2)
  · rw [h2] at h
    rcases lt_or_eq_of_le (show a.2 ≤ b.2 by omega) with h3 | h3
    · exact Or.inl (Or.inr ⟨h2, h3⟩)
    · exact Or.inr (Prod.ext h2 h3)

/-- A cell of a `width` by `height` grid has its position below `width * height`. -/
theorem pos_lt_total (width height i j : Int) (hi : i < height) (hj0 : 0 ≤ j)
    (hj : j < width) : i * width + j < width * height := by
  have : (i + 1) * width ≤ height * width := mul_le_mul_of_nonneg_right (by omega) (by omega)
  rw [add_mul, mul_comm height width] at this
  omega

theorem pos_nonneg (width i j : Int) (hw : 0 ≤ width) (hi : 0 ≤ i) (hj : 0 ≤ j) :
    0 ≤ i * width + j := by
  have := mul_nonneg hi hw
  omega

/-- Membership in the cell list of `verifyResult`, in terms of `width` and `height`. -/
theorem mem_cells_iff (width height : Int) (c : Int × Int) :
    c ∈ gridCells width.toNat height.toNat 0
      ↔ 0 ≤ c.1 ∧ c.1 < height ∧ 0 ≤ c.2 ∧ c.2 < width := by
  rw [mem_gridCells]
  constructor
  · rintro ⟨⟨h1, h2⟩, h3, h4⟩
    exact ⟨h1, by omega, h3, by omega⟩
  · rintro ⟨h1, h2, h3, h4⟩
    exact ⟨⟨h1, by omega⟩, h3, by omega⟩

theorem verifyResult_eq_scanCells (gold result : List Int) (width height : Int) :
    verifyResult gold result width height
      = scanCells gold result width retTrue (gridCells width.toNat height.toNat 0) :=
  verifyRows_eq_scanCells gold result width height.toNat 0

/-- A cell that the scan reaches without an undefined read on the way, and that
can itself be read, lies below position `2^31`: the cell at position `2^31` cannot
be read, and it is not skipped. -/
theorem reached_lt_barrier (gold result : List Int) (width height : Int)
    (pre post : List (Int × Int)) (c : Int × Int)
    (hcs : gridCells width.toNat height.toNat 0 = pre ++ c :: post)
    (hpre : ∀ x ∈ pre, CellEq gold result width x)
    (hc : readCell gold (cellIndex width c.1 c.2) ≠ none) :
    c.1 * width + c.2 < 2147483648 := by
  have hcm : c ∈ gridCells width.toNat height.toNat 0 := by rw [hcs]; simp
  have hcm2 := (mem_cells_iff width height c).1 hcm
  obtain ⟨hc1, hc2, hc3, hc4⟩ := hcm2
  have hw : 0 < width := by omega
  by_contra hge
  have hbar := cellIndex_barrier width hw
  have hq : (2147483648 / width : Int) * width + 2147483648 % width = 2147483648 := by
    rw [mul_comm]; exact Int.ediv_add_emod _ _
  have hq2 : 0 ≤ (2147483648 : Int) % width := Int.emod_nonneg _ (by omega)
  have hq3 : (2147483648 : Int) % width < width := Int.emod_lt_of_pos _ hw
  have hq1 : 0 ≤ (2147483648 : Int) / width := Int.ediv_nonneg (by norm_num) (by omega)
  have hbad : ∀ a : List Int,
      readCell a (cellIndex width (2147483648 / width) (2147483648 % width)) = none := by
    intro a; rw [hbar]; exact readCell_neg a _ (by norm_num)
  rcases before_or_eq_of_pos_le width (2147483648 / width, 2147483648 % width) c hw hq2 hc4
      (by simp only; omega) with hb | he
  · have hqmem : ((2147483648 / width : Int), (2147483648 % width : Int))
        ∈ gridCells width.toNat height.toNat 0 := by
      rw [mem_cells_iff]
      refine ⟨hq1, ?_, hq2, hq3⟩
      rcases hb with hb | ⟨hb, _⟩
      · simp only at hb; omega
      · simp only at hb; omega
    have hin : ((2147483648 / width : Int), (2147483648 % width : Int)) ∈ pre := by
      rw [mem_front_iff pre post c _ (hcs ▸ pairwise_gridCells _ _ _)]
      exact ⟨hcs ▸ hqmem, hb⟩
    obtain ⟨v, hv, _⟩ := hpre _ hin
    rw [hbad gold] at hv
    exact Option.noConfusion hv
  · rw [← he] at hc
    exact hc (hbad gold)

/-! ### Consequences for `verifyResult` -/

/-- Inside a grid of at most `2^31` cells the machine index of a cell is its
row-major position, and that position is inside the grid. -/
theorem cellIndex_in_grid (width height : Int) (hsz : width * height ≤ 2147483648)
    (c : Int × Int) (hc : c ∈ gridCells width.toNat height.toNat 0) :
    cellIndex width c.1 c.2 = c.1 * width + c.2 ∧ 0 ≤ c.1 * width + c.2 ∧
      c.1 * width + c.2 < width * height := by
  obtain ⟨h1, h2, h3, h4⟩ := (mem_cells_iff width height c).1 hc
  have hlt := pos_lt_total width height c.1 c.2 h2 h3 h4
  have h0 := pos_nonneg width c.1 c.2 (by omega) h1 h3
  exact ⟨cellIndex_of_lt width c.1 c.2 (by omega) h1 h3 (by omega), h0, hlt⟩

/-- The cell at position `2^31` belongs to every grid of more than `2^31` cells. -/
theorem barrier_mem (width height : Int) (hw : 0 < width)
    (hov : 2147483648 < width * height) :
    ((2147483648 / width : Int), (2147483648 % width : Int))
      ∈ gridCells width.toNat height.toNat 0 := by
  rw [mem_cells_iff]
  refine ⟨Int.ediv_nonneg (by norm_num) (by omega), ?_, Int.emod_nonneg _ (by omega),
    Int.emod_lt_of_pos _ hw⟩
  apply Int.ediv_lt_of_lt_mul hw
  rw [mul_comm]; exact hov

/-- Comparing an array with itself over more than `2^31` cells ends in an
undefined read. -/
theorem verifyResult_self_past_barrier (g : List Int) (width height : Int) (hw : 0 < width)
    (hov : 2147483648 < width * height) :
    (verifyResult g g width height).flow = Flow.undefined := by
  have hq := barrier_mem width height hw hov
  have hbad : readCell g (cellIndex width (2147483648 / width) (2147483648 % width)) = none := by
    rw [cellIndex_barrier width hw]; exact readCell_neg g _ (by norm_num)
  rw [verifyResult_eq_scanCells]
  rcases scanCells_cases g g width (gridCells width.toNat height.toNat 0) with
    ⟨hall, _⟩ | ⟨pre, c, post, a, b, _, _, ha, hb, hab, _⟩ | ⟨pre, c, post, _, _, _, hrun⟩
  · obtain ⟨v, hv, _⟩ := hall _ hq
    rw [hbad] at hv
    exact Option.noConfusion hv
  · rw [ha] at hb
    exact absurd (Option.some.inj hb) hab
  · rw [hrun]

/-- When the array is long enough for the first `2^31` cells, the read that fails
is the one at the wrapped index `-2^31`. -/
theorem verifyResult_self_reads_barrier (g : List Int) (width height : Int) (hw : 0 < width)
    (hov : 2147483648 < width * height) (hlen : (2147483648 : Int) ≤ g.length) :
    (-2147483648 : Int) ∈ (verifyResult g g width height).reads := by
  have hq := barrier_mem width height hw hov
  have hidx := cellIndex_barrier width hw
  have hbad : readCell g (cellIndex width (2147483648 / width) (2147483648 % width)) = none := by
    rw [hidx]; exact readCell_neg g _ (by norm_num)
  have hpos : (2147483648 / width : Int) * width + 2147483648 % width = 2147483648 := by
    rw [mul_comm]; exact Int.ediv_add_emod _ _
  rw [verifyResult_eq_scanCells]
  rcases scanCells_cases g g width (gridCells width.toNat height.toNat 0) with
    ⟨hall, _⟩ | ⟨pre, c, post, a, b, _, _, ha, hb, hab, _⟩ | ⟨pre, c, post, hcs, hpre, hc, hrun⟩
  · obtain ⟨v, hv, _⟩ := hall _ hq
    rw [hbad] at hv
    exact Option.noConfusion hv
  · rw [ha] at hb
    exact absurd (Option.some.inj hb) hab
  · have hcm : c ∈ gridCells width.toNat height.toNat 0 := by rw [hcs]; simp
    obtain ⟨h1, h2, h3, h4⟩ := (mem_cells_iff width height c).1 hcm
    have hge : 2147483648 ≤ c.1 * width + c.2 := by
      by_contra hlt
      have hi := cellIndex_of_lt width c.1 c.2 (by omega) h1 h3 (by omega)
      have h0 := pos_nonneg width c.1 c.2 (by omega) h1 h3
      obtain ⟨v, hv⟩ := readCell_of_lt g (c.1 * width + c.2) h0 (by omega)
      rw [hi, hv] at hc
      rcases hc with hc | hc <;> exact Option.noConfusion hc
    have hqc : ((2147483648 / width : Int), (2147483648 % width : Int)) = c := by
      rcases before_or_eq_of_pos_le width (2147483648 / width, 2147483648 % width) c hw
          (Int.emod_nonneg _ (by omega)) h4 (by simp only; omega) with hb | he
      · exfalso
        have hin : ((2147483648 / width : Int), (2147483648 % width : Int)) ∈ pre := by
          rw [mem_front_iff pre post c _ (hcs ▸ pairwise_gridCells _ _ _)]
          exact ⟨hcs ▸ hq, hb⟩
        obtain ⟨v, hv, _⟩ := hpre _ hin
        rw [hbad] at hv
        exact Option.noConfusion hv
      · exact he
    rw [hrun]
    simp only [List.map_append, List.map_cons, List.map_nil, List.mem_append,
      List.mem_singleton]
    right
    rw [← hqc]
    exact hidx.symm

/-! ### Claims about `verifyResult` -/

/-- Inside the range of `int` indices and inside both arrays, `verifyResult`
returns true exactly when all cells agree and false exactly when one differs. -/
theorem verifyResult_flow_iff (gold result : List Int) (width height : Int)
    (hsz : width * height ≤ 2147483648)
    (hg : width * height ≤ gold.length) (hr : width * height ≤ result.length) :
    ((verifyResult gold result width height).flow = Flow.returned true ↔
      ∀ i j : Int, 0 ≤ i → i < height → 0 ≤ j → j < width →
        readCell gold (i * width + j) = readCell result (i * width + j)) ∧
    ((verifyResult gold result width height).flow = Flow.returned false ↔
      ∃ i j : Int, 0 ≤ i ∧ i < height ∧ 0 ≤ j ∧ j < width ∧
        readCell gold (i * width + j) ≠ readCell result (i * width + j)) := by
  have hcell : ∀ c ∈ gridCells width.toNat height.toNat 0,
      cellIndex width c.1 c.2 = c.1 * width + c.2 ∧
      (∃ v, readCell gold (c.1 * width + c.2) = some v) ∧
      (∃ v, readCell result (c.1 * width + c.2) = some v) := by
    intro c hc
    obtain ⟨h1, h2, h3⟩ := cellIndex_in_grid width height hsz c hc
    exact ⟨h1, readCell_of_lt gold _ h2 (by omega), readCell_of_lt result _ h2 (by omega)⟩
  rw [verifyResult_eq_scanCells]
  rcases scanCells_cases gold result width (gridCells width.toNat height.toNat 0) with
    ⟨hall, hrun⟩ | ⟨pre, c, post, a, b, hcs, _, ha, hb, hab, hrun⟩ |
    ⟨pre, c, post, hcs, _, hc, _⟩
  · have heq : ∀ i j : Int, 0 ≤ i → i < height → 0 ≤ j → j < width →
        readCell gold (i * width + j) = readCell result (i * width + j) := by
      intro i j hi0 hi hj0 hj
      have hm : (i, j) ∈ gridCells width.toNat height.toNat 0 :=
        (mem_cells_iff width height (i, j)).2 ⟨hi0, hi, hj0, hj⟩
      obtain ⟨v, hv1, hv2⟩ := hall _ hm
      rw [(hcell _ hm).1] at hv1 hv2
      simp only at hv1 hv2
      rw [hv1, hv2]
    rw [hrun]
    refine ⟨⟨fun _ => heq, fun _ => rfl⟩, ⟨fun h => ?_, ?_⟩⟩
    · simp at h
    · rintro ⟨i, j, hi0, hi, hj0, hj, hne⟩
      exact absurd (heq i j hi0 hi hj0 hj) hne
  · have hcm : c ∈ gridCells width.toNat height.toNat 0 := by rw [hcs]; simp
    obtain ⟨h1, h2, h3, h4⟩ := (mem_cells_iff width height c).1 hcm
    rw [(hcell c hcm).1] at ha hb
    have hne : readCell gold (c.1 * width + c.2) ≠ readCell result (c.1 * width + c.2) := by
      rw [ha, hb]
      intro h
      exact hab (Option.some.inj h)
    rw [hrun]
    refine ⟨⟨fun h => ?_, fun h => ?_⟩, ⟨fun _ => ⟨c.1, c.2, h1, h2, h3, h4, hne⟩, fun _ => rfl⟩⟩
    · simp at h
    · exact absurd (h c.1 c.2 h1 h2 h3 h4) hne
  · exfalso
    have hcm : c ∈ gridCells width.toNat height.toNat 0 := by rw [hcs]; simp
    obtain ⟨hi, ⟨v, hv⟩, ⟨u, hu⟩⟩ := hcell c hcm
    rw [hi, hv, hu] at hc
    rcases hc with hc | hc <;> exact Option.noConfusion hc

/-- C1 (amended): for `width` and `height` with `width * height <= 2^31` (of either
sign, so in particular for `width >= 0`, `height >= 0`) and two arrays of length at
least `width * height`, `verifyResult` returns true if and
only if every cell `i * width + j` with `0 <= i < height`, `0 <= j < width` holds
the same integer in both arrays, and returns false if and only if some such cell
differs; so it always returns, and one differing cell makes it return false. -/
theorem verifyResult_true_iff_all_equal (gold result : List Int) (width height : Int)
    (hsz : width * height ≤ 2147483648)
    (hg : width * height ≤ gold.length) (hr : width * height ≤ result.length) :
    ((verifyResult gold result width height).flow = Flow.returned true ↔
      ∀ i j : Int, 0 ≤ i → i < height → 0 ≤ j → j < width →
        readCell gold (i * width + j) = readCell result (i * width + j)) ∧
    ((verifyResult gold result width height).flow = Flow.returned false ↔
      ∃ i j : Int, 0 ≤ i ∧ i < height ∧ 0 ≤ j ∧ j < width ∧
        readCell gold (i * width + j) ≠ readCell result (i * width + j)) :=
  verifyResult_flow_iff gold result width height hsz hg hr

/-- C1, a run of the amended statement: two 2 by 3 grids that differ in one cell. -/
theorem verifyResult_true_iff_all_equal_witness :
    ((verifyResult [1, 2, 3, 4, 5, 6] [1, 2, 3, 9, 5, 6] 2 3).flow = Flow.returned true ↔
      ∀ i j : Int, 0 ≤ i → i < 3 → 0 ≤ j → j < 2 →
        readCell [1, 2, 3, 4, 5, 6] (i * 2 + j) = readCell [1, 2, 3, 9, 5, 6] (i * 2 + j)) ∧
    ((verifyResult [1, 2, 3, 4, 5, 6] [1, 2, 3, 9, 5, 6] 2 3).flow = Flow.returned false ↔
      ∃ i j : Int, 0 ≤ i ∧ i < 3 ∧ 0 ≤ j ∧ j < 2 ∧
        readCell [1, 2, 3, 4, 5, 6] (i * 2 + j) ≠ readCell [1, 2, 3, 9, 5, 6] (i * 2 + j)) :=
  verifyResult_true_iff_all_equal [1, 2, 3, 4, 5, 6] [1, 2, 3, 9, 5, 6] 2 3
    (by decide) (by decide) (by decide)

/-- C1 as stated fails: with `width = 65536`, `height = 32769` and two all-zero
arrays of `width * height` cells, every cell is equal in both arrays, yet the index
`32768 * 65536` leaves the range of `int` and `verifyResult` does not return true. -/
theorem verifyResult_past_int_range_not_true :
    (0 : Int) ≤ 65536 ∧ (0 : Int) ≤ 32769 ∧
    (65536 * 32769 : Int) ≤ (List.replicate 2147549184 (0 : Int)).length ∧
    (∀ i j : Int, 0 ≤ i → i < 32769 → 0 ≤ j → j < 65536 →
      readCell (List.replicate 2147549184 (0 : Int)) (i * 65536 + j)
        = readCell (List.replicate 2147549184 (0 : Int)) (i * 65536 + j)) ∧
    (verifyResult (List.replicate 2147549184 (0 : Int)) (List.replicate 2147549184 (0 : Int))
      65536 32769).flow = Flow.undefined := by
  refine ⟨by norm_num, by norm_num, ?_, fun _ _ _ _ _ _ => rfl, ?_⟩
  · rw [List.length_replicate]; norm_num
  · exact verifyResult_self_past_barrier _ 65536 32769 (by norm_num) (by norm_num)

/-- C2: whenever `verifyResult` returns false it has printed exactly one line; the
line names a cell `(i, j)` of the grid at which the arrays differ, its expected
value is `gold[i * width + j]`, its actual value is `result[i * width + j]`, and
every cell that precedes `(i, j)` in row-major order is equal in both arrays.
Whenever it returns true it has printed nothing. -/
theorem verifyResult_reports_first_mismatch (gold result : List Int) (width height : Int) :
    ((verifyResult gold result width height).flow = Flow.returned false →
      ∃ i j g r : Int,
        (verifyResult gold result width height).printed
          = [{ row := i, col := j, expected := g, actual := r }] ∧
        0 ≤ i ∧ i < height ∧ 0 ≤ j ∧ j < width ∧
        readCell gold (i * width + j) = some g ∧
        readCell result (i * width + j) = some r ∧ g ≠ r ∧
        ∀ i2 j2 : Int, 0 ≤ i2 → i2 < height → 0 ≤ j2 → j2 < width →
          (i2 < i ∨ (i2 = i ∧ j2 < j)) →
          ∃ v, readCell gold (i2 * width + j2) = some v ∧
            readCell result (i2 * width + j2) = some v) ∧
    ((verifyResult gold result width height).flow = Flow.returned true →
      (verifyResult gold result width height).printed = []) := by
  rw [verifyResult_eq_scanCells]
  rcases scanCells_cases gold result width (gridCells width.toNat height.toNat 0) with
    ⟨_, hrun⟩ | ⟨pre, c, post, a, b, hcs, hpre, ha, hb, hab, hrun⟩ |
    ⟨pre, c, post, _, _, _, hrun⟩
  · rw [hrun]
    exact ⟨fun h => by simp at h, fun _ => rfl⟩
  · rw [hrun]
    refine ⟨fun _ => ?_, fun h => by simp at h⟩
    have hcm : c ∈ gridCells width.toNat height.toNat 0 := by rw [hcs]; simp
    obtain ⟨h1, h2, h3, h4⟩ := (mem_cells_iff width height c).1 hcm
    have hlt := reached_lt_barrier gold result width height pre post c hcs hpre
      (by rw [ha]; exact Option.some_ne_none a)
    have hidx := cellIndex_of_lt width c.1 c.2 (by omega) h1 h3 hlt
    rw [hidx] at ha hb
    refine ⟨c.1, c.2, a, b, rfl, h1, h2, h3, h4, ha, hb, hab, ?_⟩
    intro i2 j2 hi0 hi hj0 hj hbefore
    have hm : (i2, j2) ∈ gridCells width.toNat height.toNat 0 :=
      (mem_cells_iff width height (i2, j2)).2 ⟨hi0, hi, hj0, hj⟩
    have hin : (i2, j2) ∈ pre := by
      rw [mem_front_iff pre post c _ (hcs ▸ pairwise_gridCells _ _ _)]
      exact ⟨hcs ▸ hm, hbefore⟩
    have hpos := pos_lt_of_before width (i2, j2) c (by omega) hj h3 hbefore
    simp only at hpos
    obtain ⟨v, hv1, hv2⟩ := hpre _ hin
    rw [cellIndex_of_lt width i2 j2 (by omega) hi0 hj0 (by omega)] at hv1 hv2
    exact ⟨v, hv1, hv2⟩
  · rw [hrun]
    exact ⟨fun h => by simp at h, fun h => by simp at h⟩

/-- C2, a run: two 2 by 3 grids that differ in the cells `(1, 1)` and `(2, 1)`;
the line printed is the one for `(1, 1)`. -/
theorem verifyResult_reports_first_mismatch_witness :
    (verifyResult [1, 2, 3, 4, 5, 6] [1, 2, 3, 9, 5, 7] 2 3).flow = Flow.returned false ∧
    (verifyResult [1, 2, 3, 4, 5, 6] [1, 2, 3, 9, 5, 7] 2 3).printed
      = [{ row := 1, col := 1, expected := 4, actual := 9 }] ∧
    ∃ i j g r : Int,
      (verifyResult [1, 2, 3, 4, 5, 6] [1, 2, 3, 9, 5, 7] 2 3).printed
        = [{ row := i, col := j, expected := g, actual := r }] ∧
      0 ≤ i ∧ i < 3 ∧ 0 ≤ j ∧ j < 2 ∧
      readCell [1, 2, 3, 4, 5, 6] (i * 2 + j) = some g ∧
      readCell [1, 2, 3, 9, 5, 7] (i * 2 + j) = some r ∧ g ≠ r ∧
      ∀ i2 j2 : Int, 0 ≤ i2 → i2 < 3 → 0 ≤ j2 → j2 < 2 →
        (i2 < i ∨ (i2 = i ∧ j2 < j)) →
        ∃ v, readCell [1, 2, 3, 4, 5, 6] (i2 * 2 + j2) = some v ∧
          readCell [1, 2, 3, 9, 5, 7] (i2 * 2 + j2) = some v :=
  ⟨by decide, by decide,
    (verifyResult_reports_first_mismatch [1, 2, 3, 4, 5, 6] [1, 2, 3, 9, 5, 7] 2 3).1
      (by decide)⟩

/-- C9 (amended): for `width` and `height` with `width * height <= 2^31` (in
particular for `width >= 0`, `height >= 0` within that bound), every index `verifyResult` reads is `i * width + j` for a cell of the grid and
satisfies `0 <= index < width * height`, so with both arrays of length at least
`width * height` no read is out of bounds; and when `width <= 0` or `height <= 0`
(any values, any two arrays) it reads no cell, prints nothing and returns true. -/
theorem verifyResult_reads_in_bounds (gold result : List Int) (width height : Int) :
    (width * height ≤ 2147483648 →
      (∀ k ∈ (verifyResult gold result width height).reads,
        (∃ i j : Int, 0 ≤ i ∧ i < height ∧ 0 ≤ j ∧ j < width ∧ k = i * width + j) ∧
          0 ≤ k ∧ k < width * height) ∧
      (width * height ≤ gold.length → width * height ≤ result.length →
        (verifyResult gold result width height).flow ≠ Flow.undefined)) ∧
    (width ≤ 0 ∨ height ≤ 0 →
      verifyResult gold result width height
        = { reads := [], printed := [], flow := Flow.returned true }) := by
  constructor
  · intro hsz
    have hreads : ∀ k ∈ (verifyResult gold result width height).reads,
        ∃ c ∈ gridCells width.toNat height.toNat 0, k = cellIndex width c.1 c.2 := by
      rw [verifyResult_eq_scanCells]
      rcases scanCells_cases gold result width (gridCells width.toNat height.toNat 0) with
        ⟨_, hrun⟩ | ⟨pre, c, post, a, b, hcs, _, _, _, _, hrun⟩ |
        ⟨pre, c, post, hcs, _, _, hrun⟩
      · rw [hrun]
        intro k hk
        obtain ⟨c, hc, rfl⟩ := List.mem_map.1 hk
        exact ⟨c, hc, rfl⟩
      · rw [hrun]
        intro k hk
        obtain ⟨d, hd, rfl⟩ := List.mem_map.1 hk
        refine ⟨d, ?_, rfl⟩
        rw [hcs]
        rcases List.mem_append.1 hd with h | h
        · exact List.mem_append_left _ h
        · rw [List.mem_singleton] at h
          rw [h]; simp
      · rw [hrun]
        intro k hk
        obtain ⟨d, hd, rfl⟩ := List.mem_map.1 hk
        refine ⟨d, ?_, rfl⟩
        rw [hcs]
        rcases List.mem_append.1 hd with h | h
        · exact List.mem_append_left _ h
        · rw [List.mem_singleton] at h
          rw [h]; simp
    refine ⟨?_, ?_⟩
    · intro k hk
      obtain ⟨c, hc, rfl⟩ := hreads k hk
      obtain ⟨h1, h2, h3, h4⟩ := (mem_cells_iff width height c).1 hc
      obtain ⟨e1, e2, e3⟩ := cellIndex_in_grid width height hsz c hc
      rw [e1]
      exact ⟨⟨c.1, c.2, h1, h2, h3, h4, rfl⟩, e2, e3⟩
    · intro hg hr
      rcases (verifyResult_flow_iff gold result width height hsz hg hr) with
        ⟨ht, hf⟩
      by_cases hall : ∀ i j : Int, 0 ≤ i → i < height → 0 ≤ j → j < width →
          readCell gold (i * width + j) = readCell result (i * width + j)
      · rw [ht.2 hall]; simp
      · have hex : ∃ i j : Int, 0 ≤ i ∧ i < height ∧ 0 ≤ j ∧ j < width ∧
            readCell gold (i * width + j) ≠ readCell result (i * width + j) := by
          by_contra hno
          apply hall
          intro i j a b c d
          by_contra hne
          exact hno ⟨i, j, a, b, c, d, hne⟩
        rw [hf.2 hex]; simp
  · intro h
    unfold verifyResult
    rcases h with h | h
    · have hz : width.toNat = 0 := Int.toNat_eq_zero.2 h
      have hrows : ∀ (n : Nat) (i : Int), verifyRows gold result width n i
          = { reads := [], printed := [], flow := Flow.returned true } := by
        intro n
        induction n with
        | zero => intro i; rfl
        | succ n ih =>
          intro i
          simp [verifyRows, hz, verifyCols, ih]
      exact hrows _ _
    · have hz : height.toNat = 0 := Int.toNat_eq_zero.2 h
      rw [hz]; rfl

/-- C9, a run of the amended statement: a 2 by 3 grid reads the indices 0 to 5,
and a grid of width 0 reads nothing even from empty arrays. -/
theorem verifyResult_reads_in_bounds_witness :
    ((∀ k ∈ (verifyResult [1, 2, 3, 4, 5, 6] [1, 2, 3, 4, 5, 6] 2 3).reads,
        (∃ i j : Int, 0 ≤ i ∧ i < 3 ∧ 0 ≤ j ∧ j < 2 ∧ k = i * 2 + j) ∧ 0 ≤ k ∧ k < 2 * 3) ∧
      (verifyResult [1, 2, 3, 4, 5, 6] [1, 2, 3, 4, 5, 6] 2 3).flow ≠ Flow.undefined) ∧
    (verifyResult [1, 2, 3, 4, 5, 6] [1, 2, 3, 4, 5, 6] 2 3).reads = [0, 1, 2, 3, 4, 5] ∧
    verifyResult [] [] 0 3 = { reads := [], printed := [], flow := Flow.returned true } :=
  ⟨⟨((verifyResult_reads_in_bounds [1, 2, 3, 4, 5, 6] [1, 2, 3, 4, 5, 6] 2 3).1
        (by decide)).1,
      ((verifyResult_reads_in_bounds [1, 2, 3, 4, 5, 6] [1, 2, 3, 4, 5, 6] 2 3).1
        (by decide)).2 (by decide) (by decide)⟩,
    by decide,
    (verifyResult_reads_in_bounds [] [] 0 3).2 (Or.inl (by decide))⟩

/-- C9 as stated fails: with `width = 65536`, `height = 32769` and two all-zero
arrays of `width * height` cells, `verifyResult` reads at index `-2^31`, the wrapped
value of `32768 * 65536 + 0`, which is not in `0 .. width * height - 1`. -/
theorem verifyResult_past_int_range_reads_negative :
    (0 : Int) ≤ 65536 ∧ (0 : Int) ≤ 32769 ∧
    (65536 * 32769 : Int) ≤ (List.replicate 2147549184 (0 : Int)).length ∧
    (-2147483648 : Int) ∈
      (verifyResult (List.replicate 2147549184 (0 : Int))
        (List.replicate 2147549184 (0 : Int)) 65536 32769).reads ∧
    ¬ (0 ≤ (-2147483648 : Int)) := by
  refine ⟨by norm_num, by norm_num, ?_, ?_, by norm_num⟩
  · rw [List.length_replicate]; norm_num
  · apply verifyResult_self_reads_barrier _ 65536 32769 (by norm_num) (by norm_num)
    rw [List.length_replicate]; norm_num

/-! ### The option loop of `main` -/

theorem serialTrials_length (env : Env) (v : Viewport) (n : Nat) (st : Trials) :
    (serialTrials env v n st).grid.length = st.grid.length := by
  induction n generalizing st with
  | zero => rfl
  | succ n ih =>
    rw [serialTrials, ih]
    simp only [env.serial_length, List.length_replicate]

theorem threadTrials_length (env : Env) (cfg : Config) (n : Nat) (st : Trials) :
    (threadTrials env cfg n st).grid.length = st.grid.length := by
  induction n generalizing st with
  | zero => rfl
  | succ n ih =>
    rw [threadTrials, ih]
    simp only [env.thread_length, List.length_replicate]

theorem newGrid_length : newGrid.length = 1920000 := by
  unfold newGrid
  rw [List.length_replicate]
  rfl

theorem runSerial_length (env : Env) (cfg : Config) :
    (runSerial env cfg).grid.length = 1920000 := by
  unfold runSerial
  rw [serialTrials_length]
  exact newGrid_length

theorem runThread_length (env : Env) (cfg : Config) :
    (runThread env cfg).grid.length = 1920000 := by
  unfold runThread
  rw [threadTrials_length]
  exact newGrid_length

/-- The final check of `main` never reads outside the two arrays: it returns
true or false. -/
theorem render_check_returns (env : Env) (cfg : Config) :
    ∃ b, (verifyResult (runSerial env cfg).grid (runThread env cfg).grid width height).flow
      = Flow.returned b := by
  have h := verifyResult_flow_iff (runSerial env cfg).grid (runThread env cfg).grid width height
    (by unfold width height; norm_num)
    (by rw [runSerial_length]; unfold width height; norm_num)
    (by rw [runThread_length]; unfold width height; norm_num)
  by_cases hall : ∀ i j : Int, 0 ≤ i → i < height → 0 ≤ j → j < width →
      readCell (runSerial env cfg).grid (i * width + j)
        = readCell (runThread env cfg).grid (i * width + j)
  · exact ⟨true, h.1.2 hall⟩
  · refine ⟨false, h.2.2 ?_⟩
    by_contra hno
    apply hall
    intro i j a b c d
    by_contra hne
    exact hno ⟨i, j, a, b, c, d, hne⟩

/-- The exit status and the last print of the part of `main` after the option loop. -/
theorem render_status (env : Env) (cfg : Config) :
    ((verifyResult (runSerial env cfg).grid (runThread env cfg).grid width height).flow
        = Flow.returned true ∧ (render env cfg).status = some 0) ∨
    ((verifyResult (runSerial env cfg).grid (runThread env cfg).grid width height).flow
        = Flow.returned false ∧ (render env cfg).status = some 1) := by
  obtain ⟨b, hb⟩ := render_check_returns env cfg
  cases b with
  | true => left; exact ⟨hb, by simp only [render, hb]⟩
  | false => right; exact ⟨hb, by simp only [render, hb]⟩

/-- After the serial trials the array holds one full pass over a zeroed array. -/
theorem runSerial_grid (env : Env) (cfg : Config) :
    (runSerial env cfg).grid
      = env.mandelbrotSerial cfg.view 1600 1200 0 1200 256 (List.replicate 1920000 0) := by
  simp only [runSerial, serialTrials, env.serial_length, List.length_replicate, newGrid_length]
  rfl

/-- After the threaded trials the array holds one threaded pass over a zeroed array. -/
theorem runThread_grid (env : Env) (cfg : Config) :
    (runThread env cfg).grid
      = env.mandelbrotThread cfg.numThreads cfg.view 1600 1200 256
          (List.replicate 1920000 0) := by
  simp only [runThread, threadTrials, env.thread_length, List.length_replicate, newGrid_length]
  rfl

/-- Inside the range of `int` indices, an array compared with itself passes. -/
theorem verifyResult_self (g : List Int) (w h : Int) (hsz : w * h ≤ 2147483648)
    (hg : w * h ≤ g.length) : (verifyResult g g w h).flow = Flow.returned true :=
  (verifyResult_flow_iff g g w h hsz hg hg).1.2 (fun _ _ _ _ _ _ => rfl)

/-! ### Claims about `main` and `scaleAndShift` -/

/-- C8, what the code does: in a run that reaches rendering the serial renderer is
called five times (the comment above the loop says three), each call after a
`memset` and each a full pass (`startRow = 0`, `numRows = height`); the time kept
is the minimum of `1e30` and the five measured times. -/
theorem runSerial_five_trials (env : Env) (cfg : Config) :
    (runSerial env cfg).trace
      = [Event.memsetSerial, Event.callSerial cfg.view 1600 1200 0 1200 256,
         Event.memsetSerial, Event.callSerial cfg.view 1600 1200 0 1200 256,
         Event.memsetSerial, Event.callSerial cfg.view 1600 1200 0 1200 256,
         Event.memsetSerial, Event.callSerial cfg.view 1600 1200 0 1200 256,
         Event.memsetSerial, Event.callSerial cfg.view 1600 1200 0 1200 256] ∧
    (runSerial env cfg).best
      = min (min (min (min (min 1000000000000000000000000000000
          (env.currentSeconds 1 - env.currentSeconds 0))
          (env.currentSeconds 3 - env.currentSeconds 2))
          (env.currentSeconds 5 - env.currentSeconds 4))
          (env.currentSeconds 7 - env.currentSeconds 6))
          (env.currentSeconds 9 - env.currentSeconds 8) ∧
    (runSerial env cfg).grid
      = env.mandelbrotSerial cfg.view 1600 1200 0 1200 256 (List.replicate 1920000 0) :=
  ⟨rfl, rfl, runSerial_grid env cfg⟩

theorem mem_workerRows (numThreads height w r : Nat) :
    r ∈ workerRows numThreads height w ↔ r < height ∧ r % numThreads = w := by
  simp [workerRows, workerOf, List.mem_filter]

theorem nodup_workerRows (numThreads height w : Nat) :
    (workerRows numThreads height w).Nodup :=
  List.Nodup.filter _ (List.nodup_range height)

theorem mem_rowWrites (px : Nat → Nat → Int) (width r : Nat) (p : Nat × Int) :
    p ∈ rowWrites px width r ↔ ∃ c, c < width ∧ p = (r * width + c, px r c) := by
  simp only [rowWrites, List.mem_map, List.mem_range]
  constructor
  · rintro ⟨c, hc, rfl⟩; exact ⟨c, hc, rfl⟩
  · rintro ⟨c, hc, rfl⟩; exact ⟨c, hc, rfl⟩

theorem mem_serialWrites (px : Nat → Nat → Int) (width numRows : Nat) (p : Nat × Int) :
    p ∈ serialWrites px width 0 numRows
      ↔ ∃ r c, r < numRows ∧ c < width ∧ p = (r * width + c, px r c) := by
  simp only [serialWrites, List.mem_flatMap, List.mem_range, mem_rowWrites, Nat.zero_add]
  constructor
  · rintro ⟨r, hr, c, hc, rfl⟩; exact ⟨r, c, hr, hc, rfl⟩
  · rintro ⟨r, c, hr, hc, rfl⟩; exact ⟨r, hr, c, hc, rfl⟩

theorem mem_threadWrites (px : Nat → Nat → Int) (numThreads width height : Nat)
    (hN : 1 ≤ numThreads) (p : Nat × Int) :
    p ∈ threadWrites px numThreads width height
      ↔ ∃ r c, r < height ∧ c < width ∧ p = (r * width + c, px r c) := by
  simp only [threadWrites, workerWrites, List.mem_flatMap, List.mem_range, mem_rowWrites,
    mem_workerRows]
  constructor
  · rintro ⟨w, _, r, ⟨hr, _⟩, c, hc, rfl⟩; exact ⟨r, c, hr, hc, rfl⟩
  · rintro ⟨r, c, hr, hc, rfl⟩
    exact ⟨r % numThreads, Nat.mod_lt _ (by omega), r, ⟨hr, rfl⟩, c, hc, rfl⟩

theorem length_store (grid : List Int) (ws : List (Nat × Int)) :
    (store grid ws).length = grid.length := by
  induction ws generalizing grid with
  | nil => rfl
  | cons p ps ih =>
    show (store (grid.set p.1 p.2) ps).length = grid.length
    rw [ih, List.length_set]

/-- A cell of the grid after a sequence of stores that all store the value `f` of
their index: the value `f` when some store hits the cell, the old value otherwise. -/
theorem getElem?_store (f : Nat → Int) (ws : List (Nat × Int)) (hf : ∀ p ∈ ws, p.2 = f p.1)
    (grid : List Int) (k : Nat) :
    (store grid ws)[k]?
      = if k ∈ ws.map Prod.fst ∧ k < grid.length then some (f k) else grid[k]? := by
  induction ws generalizing grid with
  | nil => simp [store]
  | cons p ps ih =>
    show (store (grid.set p.1 p.2) ps)[k]? = _
    rw [ih (fun q hq => hf q (List.mem_cons_of_mem _ hq)), List.length_set, List.getElem?_set]
    have hp : p.2 = f p.1 := hf p (List.mem_cons_self _ _)
    by_cases hk : k ∈ ps.map Prod.fst
    · by_cases hl : k < grid.length
      · simp [hk, hl]
      · simp only [hk, hl, and_false, if_false, List.map_cons, List.mem_cons]
        have : grid[k]? = none := List.getElem?_eq_none (by omega)
        by_cases hpk : p.1 = k
        · simp [hpk, hl, this]
        · simp [hpk]
    · by_cases hpk : p.1 = k
      · by_cases hl : k < grid.length
        · subst hpk
          simp [hk, hl, hp]
        · have : grid[k]? = none := List.getElem?_eq_none (by omega)
          simp [hk, hpk, hl, this]
      · have hne : ¬ k = p.1 := fun h => hpk h.symm
        simp [hk, hpk, hne]

/-- Two sequences of stores that hit the same cells, each storing the value `f` of
its index, leave the same grid. -/
theorem store_congr (f : Nat → Int) (ws1 ws2 : List (Nat × Int))
    (h1 : ∀ p ∈ ws1, p.2 = f p.1) (h2 : ∀ p ∈ ws2, p.2 = f p.1)
    (hidx : ∀ k, k ∈ ws1.map Prod.fst ↔ k ∈ ws2.map Prod.fst) (grid : List Int) :
    store grid ws1 = store grid ws2 := by
  apply List.ext_getElem?
  intro k
  rw [getElem?_store f ws1 h1, getElem?_store f ws2 h2]
  by_cases hk : k ∈ ws1.map Prod.fst
  · have hk2 : k ∈ ws2.map Prod.fst := (hidx k).1 hk
    by_cases hl : k < grid.length
    · rw [if_pos ⟨hk, hl⟩, if_pos ⟨hk2, hl⟩]
    · rw [if_neg (fun h => hl h.2), if_neg (fun h => hl h.2)]
  · have hk2 : k ∉ ws2.map Prod.fst := fun h => hk ((hidx k).2 h)
    rw [if_neg (fun h => hk h.1), if_neg (fun h => hk2 h.1)]

/-- The kernel value that belongs to the cell with row-major index `k`. -/
theorem px_of_index (px : Nat → Nat → Int) (width r c : Nat) (hc : c < width) :
    px ((r * width + c) / width) ((r * width + c) % width) = px r c := by
  have hw : 0 < width := by omega
  have h1 : (r * width + c) / width = r := by
    rw [Nat.add_comm, Nat.add_mul_div_right _ _ hw, Nat.div_eq_of_lt hc, Nat.zero_add]
  have h2 : (r * width + c) % width = c := by
    rw [Nat.add_comm, Nat.add_mul_mod_self_right, Nat.mod_eq_of_lt hc]
  rw [h1, h2]

/-- Every schedule of the threaded render leaves the grid of the serial render. -/
theorem store_schedule_eq_serial (px : Nat → Nat → Int) (numThreads width height : Nat)
    (hN : 1 ≤ numThreads) (sched : List (Nat × Int))
    (hs : IsSchedule px numThreads width height sched) (grid : List Int) :
    store grid sched = store grid (serialWrites px width 0 height) := by
  have hmem : ∀ p, p ∈ sched ↔ p ∈ serialWrites px width 0 height := by
    intro p
    rw [List.Perm.mem_iff hs, mem_threadWrites px numThreads width height hN, mem_serialWrites]
  have hval : ∀ p ∈ serialWrites px width 0 height,
      p.2 = (fun k => px (k / width) (k % width)) p.1 := by
    intro p hp
    obtain ⟨r, c, _, hc, rfl⟩ := (mem_serialWrites px width height p).1 hp
    exact (px_of_index px width r c hc).symm
  apply store_congr (fun k => px (k / width) (k % width)) _ _
    (fun p hp => hval p ((hmem p).1 hp)) hval
  intro k
  simp only [List.mem_map]
  constructor
  · rintro ⟨p, hp, rfl⟩; exact ⟨p, (hmem p).1 hp, rfl⟩
  · rintro ⟨p, hp, rfl⟩; exact ⟨p, (hmem p).2 hp, rfl⟩

/-- The serial render of a grid of `width * height` cells fills every cell with its
kernel value. -/
theorem serial_grid_cell (px : Nat → Nat → Int) (width height : Nat) (grid : List Int)
    (hlen : grid.length = width * height) (r c : Nat) (hr : r < height) (hc : c < width) :
    (store grid (serialWrites px width 0 height))[r * width + c]? = some (px r c) := by
  have hval : ∀ p ∈ serialWrites px width 0 height,
      p.2 = (fun k => px (k / width) (k % width)) p.1 := by
    intro p hp
    obtain ⟨r, c, _, hc, rfl⟩ := (mem_serialWrites px width height p).1 hp
    exact (px_of_index px width r c hc).symm
  rw [getElem?_store (fun k => px (k / width) (k % width)) _ hval]
  have hin : r * width + c ∈ (serialWrites px width 0 height).map Prod.fst :=
    List.mem_map.2 ⟨(r * width + c, px r c),
      (mem_serialWrites px width height _).2 ⟨r, c, hr, hc, rfl⟩, rfl⟩
  have hlt : r * width + c < grid.length := by
    rw [hlen]
    have : (r + 1) * width ≤ height * width := Nat.mul_le_mul_right _ (by omega)
    rw [Nat.add_mul, Nat.mul_comm height width] at this
    omega
  rw [if_pos ⟨hin, hlt⟩, px_of_index px width r c hc]

/-! ### Claims about the partition and the parallel renderer -/

/-- C3: for every `numThreads >= 1` (and every `height`, so every `height >= 1`) the
assignment of row `r` to worker `r mod numThreads` is a disjoint cover of the rows
`0 .. height - 1`: every row has a worker id below `numThreads` and is in the row
set of that worker only; row sets of different workers share no row; the row sets
of the workers `0 .. numThreads - 1` together hold every row exactly once (their
concatenation is a permutation of `0 .. height - 1`); when `numThreads > height`
every worker with id at least `height` has no rows; with one worker, worker 0 has
all rows. -/
theorem partition_disjoint_cover (height numThreads : Nat) (hn : 1 ≤ numThreads) :
    (∀ r, r < height → workerOf numThreads r < numThreads ∧
      ∀ w, r ∈ workerRows numThreads height w ↔ w = workerOf numThreads r) ∧
    (∀ w1 w2, w1 ≠ w2 → ∀ r, r ∈ workerRows numThreads height w1 →
      r ∉ workerRows numThreads height w2) ∧
    (∀ r, (∃ w, w < numThreads ∧ r ∈ workerRows numThreads height w) ↔ r < height) ∧
    ((List.range numThreads).flatMap (workerRows numThreads height)).Perm (List.range height) ∧
    (height < numThreads → ∀ w, height ≤ w → workerRows numThreads height w = []) ∧
    (numThreads = 1 → workerRows numThreads height 0 = List.range height) := by
  refine ⟨?_, ?_, ?_, ?_, ?_, ?_⟩
  · intro r hr
    refine ⟨Nat.mod_lt _ (by omega), fun w => ?_⟩
    rw [mem_workerRows]
    unfold workerOf
    constructor
    · rintro ⟨_, h⟩; exact h.symm
    · intro h; exact ⟨hr, h.symm⟩
  · intro w1 w2 hne r h1 h2
    rw [mem_workerRows] at h1 h2
    exact hne (h1.2.symm.trans h2.2)
  · intro r
    constructor
    · rintro ⟨w, _, h⟩
      exact ((mem_workerRows _ _ _ _).1 h).1
    · intro hr
      exact ⟨r % numThreads, Nat.mod_lt _ (by omega), (mem_workerRows _ _ _ _).2 ⟨hr, rfl⟩⟩
  · rw [List.perm_ext_iff_of_nodup _ (List.nodup_range height)]
    · intro r
      simp only [List.mem_flatMap, List.mem_range, mem_workerRows]
      constructor
      · rintro ⟨w, _, hr, _⟩; exact hr
      · intro hr; exact ⟨r % numThreads, Nat.mod_lt _ (by omega), hr, rfl⟩
    · rw [List.nodup_flatMap]
      refine ⟨fun w _ => nodup_workerRows _ _ w, ?_⟩
      apply List.Nodup.pairwise_of_forall_ne (List.nodup_range numThreads)
      intro a _ b _ hab r h1 h2
      rw [mem_workerRows] at h1 h2
      exact hab (h1.2.symm.trans h2.2)
  · intro _ w hw
    apply List.eq_nil_iff_forall_not_mem.2
    intro r hr
    rw [mem_workerRows] at hr
    have := Nat.mod_le r numThreads
    omega
  · intro h1
    subst h1
    apply List.ext_getElem?
    intro k
    have : workerRows 1 height 0 = List.range height := by
      unfold workerRows workerOf
      apply List.filter_eq_self.2
      intro r _
      simp [Nat.mod_one]
    rw [this]

/-- C3, runs: seven rows over three workers, and three rows over five workers. -/
theorem partition_disjoint_cover_witness :
    workerRows 3 7 0 = [0, 3, 6] ∧ workerRows 3 7 1 = [1, 4] ∧ workerRows 3 7 2 = [2, 5] ∧
    ((List.range 3).flatMap (workerRows 3 7)).Perm (List.range 7) ∧
    workerRows 5 3 3 = [] ∧ workerRows 5 3 4 = [] ∧
    workerRows 1 7 0 = List.range 7 :=
  ⟨by decide, by decide, by decide,
    (partition_disjoint_cover 7 3 (by decide)).2.2.2.1,
    (partition_disjoint_cover 3 5 (by decide)).2.2.2.2.1 (by decide) 3 (by decide),
    (partition_disjoint_cover 3 5 (by decide)).2.2.2.2.1 (by decide) 4 (by decide),
    (partition_disjoint_cover 7 1 (by decide)).2.2.2.2.2 rfl⟩

theorem specEnv_serial (kernel : Kernel) (clock : Nat → ℚ) (v : Viewport)
    (w h s n m : Int) (out : List Int) :
    (specEnv kernel clock).mandelbrotSerial v w h s n m out
      = mandelbrotSerialSpec kernel v w.toNat h.toNat s.toNat n.toNat m out := rfl

theorem specEnv_thread (kernel : Kernel) (clock : Nat → ℚ) (t : Int) (v : Viewport)
    (w h m : Int) (out : List Int) :
    (specEnv kernel clock).mandelbrotThread t v w h m out
      = mandelbrotThreadSpec kernel t.toNat v w.toNat h.toNat m out := rfl

/-- With the renderers of the specification and at least one worker, the final
check of `main` passes. -/
theorem render_specEnv_check (kernel : Kernel) (clock : Nat → ℚ) (cfg : Config)
    (hN : 1 ≤ cfg.numThreads) :
    (verifyResult (runSerial (specEnv kernel clock) cfg).grid
      (runThread (specEnv kernel clock) cfg).grid width height).flow = Flow.returned true := by
  have hs : (runSerial (specEnv kernel clock) cfg).grid
      = store (List.replicate 1920000 0)
          (serialWrites (kernel cfg.view 1600 1200 256) 1600 0 1200) := by
    rw [runSerial_grid, specEnv_serial, show (1600 : Int).toNat = 1600 from rfl,
      show (1200 : Int).toNat = 1200 from rfl, show (0 : Int).toNat = 0 from rfl]
    unfold mandelbrotSerialSpec
    rfl
  have ht : (runThread (specEnv kernel clock) cfg).grid
      = store (List.replicate 1920000 0)
          (threadWrites (kernel cfg.view 1600 1200 256) cfg.numThreads.toNat 1600 1200) := by
    rw [runThread_grid, specEnv_thread, show (1600 : Int).toNat = 1600 from rfl,
      show (1200 : Int).toNat = 1200 from rfl]
    unfold mandelbrotThreadSpec
    rfl
  rw [hs, ht, store_schedule_eq_serial (kernel cfg.view 1600 1200 256) cfg.numThreads.toNat
    1600 1200 (by omega) _ (List.Perm.refl _)]
  apply verifyResult_self
  · unfold width height; norm_num
  · rw [length_store, List.length_replicate]; unfold width height; norm_num

/-- C4 (amended): for every `numThreads >= 1`, viewport, width, height and
iteration bound, and for every order in which the workers' stores reach a zeroed
grid, the threaded render leaves the grid of the serial render, in which cell
`r * width + c` holds the kernel value of pixel `(r, c)`; for
`width * height <= 2^31` `verifyResult` on the two grids returns true; and `main`,
run with these renderers and a thread count of at least 1, returns 0. -/
theorem thread_render_eq_serial_render (kernel : Kernel) (v : Viewport) (w h : Nat)
    (maxIter : Int) (numThreads : Nat) (sched : List (Nat × Int)) (hN : 1 ≤ numThreads)
    (hs : IsSchedule (kernel v w h maxIter) numThreads w h sched) :
    store (List.replicate (w * h) 0) sched
      = mandelbrotSerialSpec kernel v w h 0 h maxIter (List.replicate (w * h) 0) ∧
    mandelbrotThreadSpec kernel numThreads v w h maxIter (List.replicate (w * h) 0)
      = mandelbrotSerialSpec kernel v w h 0 h maxIter (List.replicate (w * h) 0) ∧
    (∀ r c, r < h → c < w →
      (store (List.replicate (w * h) 0) sched)[r * w + c]? = some (kernel v w h maxIter r c)) ∧
    ((w : Int) * h ≤ 2147483648 →
      (verifyResult (mandelbrotSerialSpec kernel v w h 0 h maxIter (List.replicate (w * h) 0))
        (store (List.replicate (w * h) 0) sched) w h).flow = Flow.returned true) ∧
    (∀ (clock : Nat → ℚ) (opts : List Opt) (cfg : Config),
      parseOptions defaultConfig opts = Parsed.proceed cfg → 1 ≤ cfg.numThreads →
        (main (specEnv kernel clock) opts).status = some 0) := by
  have heq := store_schedule_eq_serial (kernel v w h maxIter) numThreads w h hN sched hs
    (List.replicate (w * h) 0)
  refine ⟨heq, ?_, ?_, ?_, ?_⟩
  · exact store_schedule_eq_serial (kernel v w h maxIter) numThreads w h hN _
      (List.Perm.refl _) _
  · intro r c hr hc
    rw [heq]
    exact serial_grid_cell _ w h _ (List.length_replicate _ _) r c hr hc
  · intro hsz
    rw [heq]
    apply verifyResult_self _ _ _ hsz
    unfold mandelbrotSerialSpec
    rw [length_store, List.length_replicate]
    push_cast
    exact le_refl _
  · intro clock opts cfg hp hcfg
    have hm : main (specEnv kernel clock) opts = render (specEnv kernel clock) cfg := by
      simp only [main, hp]
    rw [hm]
    rcases render_status (specEnv kernel clock) cfg with ⟨_, hst⟩ | ⟨hflow, _⟩
    · exact hst
    · rw [render_specEnv_check kernel clock cfg hcfg] at hflow
      simp at hflow

/-- C4, a run: two workers on a 2 by 3 grid, the stores of worker 1 before those
of worker 0. -/
theorem thread_render_eq_serial_render_witness :
    store (List.replicate (2 * 3) 0)
        (workerWrites (tagKernel defaultConfig.view 2 3 256) 2 2 3 1
          ++ workerWrites (tagKernel defaultConfig.view 2 3 256) 2 2 3 0)
      = [0, 1, 10, 11, 20, 21] ∧
    mandelbrotSerialSpec tagKernel defaultConfig.view 2 3 0 3 256 (List.replicate (2 * 3) 0)
      = [0, 1, 10, 11, 20, 21] ∧
    (verifyResult
      (mandelbrotSerialSpec tagKernel defaultConfig.view 2 3 0 3 256 (List.replicate (2 * 3) 0))
      (store (List.replicate (2 * 3) 0)
        (workerWrites (tagKernel defaultConfig.view 2 3 256) 2 2 3 1
          ++ workerWrites (tagKernel defaultConfig.view 2 3 256) 2 2 3 0))
      ((2 : Nat) : Int) ((3 : Nat) : Int)).flow = Flow.returned true ∧
    (main (specEnv tagKernel (fun k => k)) [Opt.threads "2"]).status = some 0 :=
  ⟨by decide, by decide,
    (thread_render_eq_serial_render tagKernel defaultConfig.view 2 3 256 2
      (workerWrites (tagKernel defaultConfig.view 2 3 256) 2 2 3 1
          ++ workerWrites (tagKernel defaultConfig.view 2 3 256) 2 2 3 0)
      (by decide) (List.perm_append_comm)).2.2.2.1 (by decide),
    (thread_render_eq_serial_render tagKernel defaultConfig.view 2 3 256 2
      (workerWrites (tagKernel defaultConfig.view 2 3 256) 2 2 3 1
          ++ workerWrites (tagKernel defaultConfig.view 2 3 256) 2 2 3 0)
      (by decide) (List.perm_append_comm)).2.2.2.2 (fun k => k) [Opt.threads "2"]
      { numThreads := 2, view := defaultConfig.view } (by decide) (by decide)⟩

/-- C4 as stated fails: with `width = 65536`, `height = 32769`, eight workers and
the kernel that is 0 everywhere, the threaded grid equals the serial grid, yet
`verifyResult` on the two grids does not return true: the index `32768 * 65536`
leaves the range of `int`. -/
theorem thread_render_past_int_range_not_true :
    mandelbrotThreadSpec zeroKernel 8 defaultConfig.view 65536 32769 256
        (List.replicate (65536 * 32769) 0)
      = mandelbrotSerialSpec zeroKernel defaultConfig.view 65536 32769 0 32769 256
        (List.replicate (65536 * 32769) 0) ∧
    (verifyResult
      (mandelbrotSerialSpec zeroKernel defaultConfig.view 65536 32769 0 32769 256
        (List.replicate (65536 * 32769) 0))
      (mandelbrotThreadSpec zeroKernel 8 defaultConfig.view 65536 32769 256
        (List.replicate (65536 * 32769) 0))
      65536 32769).flow = Flow.undefined := by
  have heq : mandelbrotThreadSpec zeroKernel 8 defaultConfig.view 65536 32769 256
        (List.replicate (65536 * 32769) 0)
      = mandelbrotSerialSpec zeroKernel defaultConfig.view 65536 32769 0 32769 256
        (List.replicate (65536 * 32769) 0) :=
    store_schedule_eq_serial (zeroKernel defaultConfig.view 65536 32769 256) 8 65536 32769
      (by norm_num) _ (List.Perm.refl _) _
  refine ⟨heq, ?_⟩
  rw [heq]
  exact verifyResult_self_past_barrier _ 65536 32769 (by norm_num) (by norm_num)

end Mandelbrot
